import Mathlib

/-!
Verification development for the QueryMode repository.

The application's one algorithmic core is the citation annotator
(`update_response_text`), invoked from `src/streamlit-app.py` (lines 190-194);
its implementation lives in `helpers/utils`, which is not part of the sources
available here, so the core is modelled from the specification (each such
definition says so in its doc comment).  The control flow of `main` in
`src/streamlit-app.py` (API-key gating, the per-mode search dispatch, and the
Traditional-mode result handling) is embedded directly from the source.

Python strings are modelled as `List Char`, Python integers as `Int`
(character counts as `Nat` where they are provably non-negative).
-/

/-- Shorthand turning a string literal into the character-list model of text. -/
def str (s : String) : List Char := s.data

/-- One candidate source document (spec §3, GroundingChunk). -/
structure GroundingChunk where
  index : Int
  title : List Char
  uri : List Char
deriving DecidableEq

/-- One claim in the text backed by chunks (spec §3, GroundingSupport).
`confidenceScores` is carried by the upstream payload but unused by the
algorithm, so it is omitted from the model. -/
structure GroundingSupport where
  startIndex : Int
  endIndex : Int
  chunkIndices : List Int
deriving DecidableEq

/-- Marker formatting policy (spec §6): the caller chooses the marker syntax. -/
structure FormatPolicy where
  markerPrefix : List Char
  markerSuffix : List Char
  indexSeparator : List Char
deriving DecidableEq

/-- Modelled from the spec: the default marker syntax `"[", "]", ","` (§6). -/
def defaultPolicy : FormatPolicy :=
  { markerPrefix := str "[", markerSuffix := str "]", indexSeparator := str "," }

/-- One entry of the output source list (spec §3, AnnotationResult.sources). -/
structure Source where
  displayNumber : Nat
  title : List Char
  uri : List Char
deriving DecidableEq

/-- Output of the annotator (spec §3, AnnotationResult). -/
structure AnnotationResult where
  text : List Char
  sources : List Source
deriving DecidableEq

/-- Modelled from the spec: step 1 of §4.1 — a support is kept only if its
`chunkIndices` is non-empty, both offsets lie in `[0, len(text)]`, and
`startIndex ≤ endIndex`. -/
def isValidSupport (n : Nat) (s : GroundingSupport) : Bool :=
  !s.chunkIndices.isEmpty
    && decide (0 ≤ s.startIndex) && decide (s.startIndex ≤ (n : Int))
    && decide (0 ≤ s.endIndex) && decide (s.endIndex ≤ (n : Int))
    && decide (s.startIndex ≤ s.endIndex)

/-- Modelled from the spec: the surviving (well-formed) supports. -/
def validSupports (n : Nat) (supports : List GroundingSupport) :
    List GroundingSupport :=
  supports.filter (isValidSupport n)

/-- Does some chunk carry index `i`?  Dangling indices fail this test. -/
def hasChunk (chunks : List GroundingChunk) (i : Int) : Bool :=
  chunks.any (fun c => c.index == i)

/-- First chunk carrying index `i`, if any. -/
def findChunk (chunks : List GroundingChunk) (i : Int) : Option GroundingChunk :=
  chunks.find? (fun c => c.index == i)

/-- Position of `i` in `l`, if present. -/
def idxOf? (l : List Int) (i : Int) : Option Nat :=
  match l with
  | [] => none
  | x :: xs => if x == i then some 0 else (idxOf? xs i).map (· + 1)

/-- Modelled from the spec: one step of the first-seen numbering pass (§4.1
step 4) — an index is recorded the first time it is met, and only when a chunk
with that index exists (a dangling index gets no display number, §4.1 edge
cases). -/
def addIdx (chunks : List GroundingChunk) (acc : List Int) (i : Int) : List Int :=
  if hasChunk chunks i && !(decide (i ∈ acc)) then acc ++ [i] else acc

/-- Modelled from the spec: record every index cited by one support, in the
order the support lists them. -/
def addCited (chunks : List GroundingChunk) (acc : List Int)
    (s : GroundingSupport) : List Int :=
  s.chunkIndices.foldl (addIdx chunks) acc

/-- Stable ascending sort of supports by `endIndex` (spec §4.1 step 4). -/
def sortAscByEnd (l : List GroundingSupport) : List GroundingSupport :=
  l.insertionSort (fun a b => a.endIndex ≤ b.endIndex)

/-- Stable descending sort of supports by `endIndex` (spec §4.1 step 2). -/
def sortDescByEnd (l : List GroundingSupport) : List GroundingSupport :=
  l.insertionSort (fun a b => b.endIndex ≤ a.endIndex)

/-- Modelled from the spec: §4.1 step 4 — the distinct chunk indices actually
cited by valid supports, in first-seen order over the valid supports sorted by
`endIndex` ascending.  The display number of an index is its position here
plus one. -/
def citedIndices (n : Nat) (supports : List GroundingSupport)
    (chunks : List GroundingChunk) : List Int :=
  (sortAscByEnd (validSupports n supports)).foldl (addCited chunks) []

/-- Display number (1-based) of chunk index `i`, if it was cited. -/
def displayNumber? (cited : List Int) (i : Int) : Option Nat :=
  (idxOf? cited i).map (· + 1)

/-- Modelled from the spec: §4.1 steps 3 and 5 — the de-duplicated display
numbers referenced by one support's marker, in overall first-seen order
(ascending display number); dangling indices are dropped. -/
def supportNums (cited : List Int) (s : GroundingSupport) : List Nat :=
  ((s.chunkIndices.filterMap (displayNumber? cited)).dedup).insertionSort
    (fun a b => a ≤ b)

/-- Decimal rendering of a display number. -/
def natToStr (n : Nat) : List Char := (Nat.repr n).data

/-- Modelled from the spec: §4.1 step 3 and §6 — the marker string of one
support under a formatting policy. -/
def markerFor (policy : FormatPolicy) (cited : List Int)
    (s : GroundingSupport) : List Char :=
  policy.markerPrefix
    ++ List.intercalate policy.indexSeparator ((supportNums cited s).map natToStr)
    ++ policy.markerSuffix

/-- Splice `m` into `t` at character position `p` (spec §4.1 step 3). -/
def insertAt (t : List Char) (p : Nat) (m : List Char) : List Char :=
  t.take p ++ m ++ t.drop p

/-- Modelled from the spec: the in-order list of splices performed by the
insertion pass — valid supports sorted by `endIndex` descending (ties stable in
original sequence order), a support whose indices are all dangling dropped
entirely (§4.1 step 2 and edge cases), each remaining support contributing its
marker at its own `endIndex`. -/
def insertionsOf (policy : FormatPolicy) (n : Nat)
    (supports : List GroundingSupport) (chunks : List GroundingChunk) :
    List (Nat × List Char) :=
  let cited := citedIndices n supports chunks
  ((sortDescByEnd (validSupports n supports)).filter
      (fun s => !(supportNums cited s).isEmpty)).map
    (fun s => (s.endIndex.toNat, markerFor policy cited s))

/-- Perform a list of splices left to right on the evolving text. -/
def applyInsertions (t : List Char) (ins : List (Nat × List Char)) : List Char :=
  ins.foldl (fun acc pm => insertAt acc pm.1 pm.2) t

/-- Modelled from the spec: §4.1 step 6 — one source entry per cited index, in
display-number order.  Every member of `cited` has a chunk, so the `none`
branch is unreachable. -/
def sourcesOf (chunks : List GroundingChunk) (cited : List Int) : List Source :=
  cited.enum.map (fun ki =>
    match findChunk chunks ki.2 with
    | some c => { displayNumber := ki.1 + 1, title := c.title, uri := c.uri }
    | none => { displayNumber := ki.1 + 1, title := [], uri := [] })

/-- Modelled from the spec: the Citation Annotator core
`annotate(text, supports, chunks)` of §4.1, with the formatting policy of §6
as explicit first argument. -/
def annotate (policy : FormatPolicy) (text : List Char)
    (supports : List GroundingSupport) (chunks : List GroundingChunk) :
    AnnotationResult :=
  { text := applyInsertions text (insertionsOf policy text.length supports chunks)
    sources := sourcesOf chunks (citedIndices text.length supports chunks) }

/-- Modelled from the spec: §4.1 preconditions — `supports` and `chunks` may be
null/absent, in which case the text is returned unchanged with no sources. -/
def annotateOpt (policy : FormatPolicy) (text : List Char)
    (supports : Option (List GroundingSupport))
    (chunks : Option (List GroundingChunk)) : AnnotationResult :=
  match supports, chunks with
  | none, _ => { text := text, sources := [] }
  | _, none => { text := text, sources := [] }
  | some ss, some cs => annotate policy text ss cs

/-- Modelled from the spec: the repository's `update_response_text`
(called at `src/streamlit-app.py:190-194`) is the annotator under the default
marker policy. -/
def update_response_text (text : List Char) (supports : List GroundingSupport)
    (chunks : List GroundingChunk) : AnnotationResult :=
  annotate defaultPolicy text supports chunks

/-! Embedding of the `main` control flow of `src/streamlit-app.py`. -/

/-- Search mode chosen in the radio widget (`src/streamlit-app.py:160-163`). -/
inductive SearchMode
  | conversational
  | overview
  | traditional
deriving DecidableEq

/-- External requests a run of `main` can issue after the key gate. -/
inductive AppCall
  | groundedGeneration
  | serpSearch
deriving DecidableEq

/-- Embedded from `src/streamlit-app.py:128-129`: the script stops (no further
statement runs) unless both keys validated. -/
def keyGateStops (googleValid serpValid : Bool) : Bool :=
  !googleValid || !serpValid

/-- Embedded from `src/streamlit-app.py:128-219`: the search requests one run
of `main` issues, as a function of key validation, the query string, and the
selected mode.  Conversational issues the grounded generation call (line 186),
Overview issues nothing (line 203), Traditional issues the SERP search
(line 210); nothing is issued when the query is empty or the key gate stops
the script. -/
def searchCalls (googleValid serpValid : Bool) (query : List Char)
    (mode : SearchMode) : List AppCall :=
  if keyGateStops googleValid serpValid then []
  else if query.isEmpty then []
  else
    match mode with
    | .conversational => [AppCall.groundedGeneration]
    | .overview => []
    | .traditional => [AppCall.serpSearch]

/-- One organic search result inside the SERP response. -/
structure OrganicResult where
  title : List Char
  link : List Char
deriving DecidableEq

/-- A SERP response modelled as the association of keys to lists of organic
results (only the `organic_results` key matters to the embedded branch). -/
def SerpResponse := List (List Char × List OrganicResult)

/-- Python dict subscripting: a missing key raises `KeyError`. -/
inductive PyError
  | keyError
deriving DecidableEq

/-- What the Traditional branch renders when it does not raise. -/
inductive Rendered
  | write (content : List Char)
  | warning
deriving DecidableEq

/-- The literal dict key used at `src/streamlit-app.py:212`. -/
def organicResultsKey : List Char := str "organic_results"

/-- Python `d[k]` on the modelled response: `KeyError` when the key is absent. -/
def dictIndex (d : SerpResponse) (k : List Char) :
    Except PyError (List OrganicResult) :=
  match d.find? (fun kv => kv.1 == k) with
  | some kv => Except.ok kv.2
  | none => Except.error PyError.keyError

/-- Modelled from the spec: `helpers/utils.organic_search_to_markdown` is an
out-of-scope formatting wrapper turning the organic-result list into markdown;
it is modelled as one non-empty bullet line per result, so the result is the
empty (falsy) string exactly for the empty list. -/
def organic_search_to_markdown (results : List OrganicResult) : List Char :=
  (results.map (fun r => str "- " ++ r.title ++ str " " ++ r.link ++ str "\n")).flatten

/-- Embedded from `src/streamlit-app.py:207-219`: the Traditional branch
subscripts the response with `organic_results` unconditionally, then shows the
formatted results when truthy and the no-results warning otherwise. -/
def traditionalBranch (searchResults : SerpResponse) : Except PyError Rendered :=
  match dictIndex searchResults organicResultsKey with
  | Except.error e => Except.error e
  | Except.ok results =>
      let formatted := organic_search_to_markdown results
      if !formatted.isEmpty then Except.ok (Rendered.write formatted)
      else Except.ok Rendered.warning

/-! Helper lemmas about the splicing pass. -/

theorem length_insertAt (t : List Char) (p : Nat) (m : List Char) :
    (insertAt t p m).length = t.length + m.length := by
  simp [insertAt]
  omega

theorem sublist_insertAt (t : List Char) (p : Nat) (m : List Char) :
    t.Sublist (insertAt t p m) := by
  have h : (t.take p ++ t.drop p).Sublist (t.take p ++ (m ++ t.drop p)) :=
    (List.Sublist.refl _).append (List.sublist_append_right _ _)
  rw [List.take_append_drop] at h
  rw [insertAt, List.append_assoc]
  exact h

theorem length_applyInsertions (ins : List (Nat × List Char)) (t : List Char) :
    (applyInsertions t ins).length
      = t.length + (ins.map (fun pm => pm.2.length)).sum := by
  induction ins generalizing t with
  | nil => simp [applyInsertions]
  | cons pm ins ih =>
    show (applyInsertions (insertAt t pm.1 pm.2) ins).length = _
    rw [ih, length_insertAt]
    simp
    omega

theorem sublist_applyInsertions (ins : List (Nat × List Char)) (t : List Char) :
    t.Sublist (applyInsertions t ins) := by
  induction ins generalizing t with
  | nil => exact List.Sublist.refl _
  | cons pm ins ih =>
    exact (sublist_insertAt t pm.1 pm.2).trans (ih (insertAt t pm.1 pm.2))

/-- C1: for every input text and all supports (in particular any valid set),
the output text's length is the input length plus the sum of the lengths of
the inserted markers, and deleting the inserted characters from the output,
reading the remaining characters in order, reconstructs the original text
exactly (the input is a sublist of the output: no original character is
reordered or deleted). -/
theorem annotate_length_roundtrip (policy : FormatPolicy) (text : List Char)
    (supports : List GroundingSupport) (chunks : List GroundingChunk) :
    (annotate policy text supports chunks).text.length
        = text.length
          + ((insertionsOf policy text.length supports chunks).map
              (fun pm => pm.2.length)).sum
      ∧ text.Sublist (annotate policy text supports chunks).text :=
  ⟨length_applyInsertions _ _, sublist_applyInsertions _ _⟩

/-! Helper lemmas for the no-op paths. -/

theorem foldl_addIdx_nil_chunks (l acc : List Int) :
    l.foldl (addIdx []) acc = acc := by
  induction l generalizing acc with
  | nil => rfl
  | cons x xs ih => simp [List.foldl_cons, addIdx, hasChunk, ih]

theorem foldl_addCited_nil_chunks (ss : List GroundingSupport) (acc : List Int) :
    ss.foldl (addCited []) acc = acc := by
  induction ss generalizing acc with
  | nil => rfl
  | cons s ss ih =>
    rw [List.foldl_cons]
    rw [addCited, foldl_addIdx_nil_chunks]
    exact ih acc

theorem citedIndices_nil_chunks (n : Nat) (supports : List GroundingSupport) :
    citedIndices n supports [] = [] := by
  rw [citedIndices, foldl_addCited_nil_chunks]

theorem supportNums_nil_cited (s : GroundingSupport) :
    supportNums [] s = [] := by
  rw [supportNums]
  have h : s.chunkIndices.filterMap (displayNumber? []) = [] := by
    induction s.chunkIndices with
    | nil => rfl
    | cons x xs ih => simp [List.filterMap_cons, displayNumber?, idxOf?, ih]
  rw [h]
  rfl

theorem insertionsOf_nil_chunks (policy : FormatPolicy) (n : Nat)
    (supports : List GroundingSupport) :
    insertionsOf policy n supports [] = [] := by
  simp only [insertionsOf, citedIndices_nil_chunks]
  have h : (sortDescByEnd (validSupports n supports)).filter
      (fun s => !(supportNums [] s).isEmpty) = [] := by
    apply List.filter_eq_nil_iff.mpr
    intro s _
    simp [supportNums_nil_cited]
  rw [h]
  rfl

/-- C7: with an empty or null/absent supports list, or an empty or null chunks
list, the annotator returns the text unchanged together with an empty source
list, and `annotate("", [], [])` gives empty text and no sources. -/
theorem annotate_noop_empty (policy : FormatPolicy) (text : List Char)
    (supports : List GroundingSupport) (chunks : List GroundingChunk) :
    annotateOpt policy text none (some chunks) = { text := text, sources := [] }
      ∧ annotateOpt policy text (some supports) none
          = { text := text, sources := [] }
      ∧ annotate policy text [] chunks = { text := text, sources := [] }
      ∧ annotate policy text supports [] = { text := text, sources := [] }
      ∧ annotate defaultPolicy [] [] [] = { text := [], sources := [] } := by
  refine ⟨rfl, rfl, rfl, ?_, rfl⟩
  rw [annotate, insertionsOf_nil_chunks, citedIndices_nil_chunks]
  rfl

theorem validSupports_filter (n : Nat) (supports : List GroundingSupport) :
    validSupports n (supports.filter (isValidSupport n))
      = validSupports n supports := by
  rw [validSupports, validSupports, List.filter_filter]
  congr 1
  funext s
  exact Bool.and_self _

/-- C4: malformed supports (empty chunkIndices, out-of-range offsets, or
startIndex exceeding endIndex) are silently skipped and have no effect on the
processing of the remaining valid supports: annotating any support list gives
exactly the result of annotating its valid sub-list; in particular a support
with startIndex 10 and endIndex 5 is dropped while the valid support alongside
it is still annotated. -/
theorem malformed_supports_skipped (policy : FormatPolicy) (text : List Char)
    (supports : List GroundingSupport) (chunks : List GroundingChunk) :
    annotate policy text supports chunks
        = annotate policy text (supports.filter (isValidSupport text.length))
            chunks
      ∧ annotate defaultPolicy (str "hello world!")
            [{ startIndex := 10, endIndex := 5, chunkIndices := [1] },
             { startIndex := 0, endIndex := 5, chunkIndices := [1] }]
            [{ index := 1, title := str "t", uri := str "u" }]
          = annotate defaultPolicy (str "hello world!")
            [{ startIndex := 0, endIndex := 5, chunkIndices := [1] }]
            [{ index := 1, title := str "t", uri := str "u" }]
      ∧ (annotate defaultPolicy (str "hello world!")
            [{ startIndex := 10, endIndex := 5, chunkIndices := [1] },
             { startIndex := 0, endIndex := 5, chunkIndices := [1] }]
            [{ index := 1, title := str "t", uri := str "u" }]).text
          = str "hello[1] world!" := by
  refine ⟨?_, by decide, by decide⟩
  simp only [annotate, insertionsOf, citedIndices, validSupports_filter]

/-- C8: the annotator's interface takes a configurable formatting policy
consisting of markerPrefix, markerSuffix and indexSeparator, whose defaults
are "[", "]" and ","; the marker of a support is built from those three
fields, and two different policies yield differently formatted markers for the
same inputs. -/
theorem marker_policy_configurable :
    defaultPolicy
        = { markerPrefix := str "[", markerSuffix := str "]",
            indexSeparator := str "," }
      ∧ (∀ (policy : FormatPolicy) (cited : List Int) (s : GroundingSupport),
          markerFor policy cited s
            = policy.markerPrefix
              ++ List.intercalate policy.indexSeparator
                  ((supportNums cited s).map natToStr)
              ++ policy.markerSuffix)
      ∧ (annotate (FormatPolicy.mk (str "(") (str ")") (str ";"))
            (str "abcdef")
            [{ startIndex := 0, endIndex := 3, chunkIndices := [1, 2] }]
            [{ index := 1, title := str "t", uri := str "u" },
             { index := 2, title := str "t", uri := str "u" }]).text
          = str "abc(1;2)def"
      ∧ (annotate defaultPolicy (str "abcdef")
            [{ startIndex := 0, endIndex := 3, chunkIndices := [1, 2] }]
            [{ index := 1, title := str "t", uri := str "u" },
             { index := 2, title := str "t", uri := str "u" }]).text
          = str "abc[1,2]def" :=
  ⟨rfl, fun _ _ _ => rfl, by decide, by decide⟩

/-! Helper lemmas for the first-seen numbering pass. -/

theorem mem_addIdx (chunks : List GroundingChunk) (acc : List Int) (i j : Int) :
    j ∈ addIdx chunks acc i ↔ j ∈ acc ∨ (hasChunk chunks i = true ∧ j = i) := by
  rw [addIdx]
  by_cases h : (hasChunk chunks i && !(decide (i ∈ acc))) = true
  · rw [if_pos h]
    rw [Bool.and_eq_true, Bool.not_eq_true', decide_eq_false_iff_not] at h
    simp only [List.mem_append, List.mem_singleton]
    constructor
    · rintro (ha | rfl)
      · exact Or.inl ha
      · exact Or.inr ⟨h.1, rfl⟩
    · rintro (ha | ⟨_, rfl⟩)
      · exact Or.inl ha
      · exact Or.inr rfl
  · rw [if_neg h]
    rw [Bool.and_eq_true, Bool.not_eq_true', decide_eq_false_iff_not, not_and,
      not_not] at h
    constructor
    · exact Or.inl
    · rintro (ha | ⟨hc, rfl⟩)
      · exact ha
      · exact h hc

theorem mem_foldl_addIdx (chunks : List GroundingChunk) (l acc : List Int)
    (j : Int) :
    j ∈ l.foldl (addIdx chunks) acc
      ↔ j ∈ acc ∨ (hasChunk chunks j = true ∧ j ∈ l) := by
  induction l generalizing acc with
  | nil => simp
  | cons x xs ih =>
    rw [List.foldl_cons, ih, mem_addIdx]
    constructor
    · rintro ((ha | ⟨hc, rfl⟩) | ⟨hc, hx⟩)
      · exact Or.inl ha
      · exact Or.inr ⟨hc, List.mem_cons_self _ _⟩
      · exact Or.inr ⟨hc, List.mem_cons_of_mem _ hx⟩
    · rintro (ha | ⟨hc, hx⟩)
      · exact Or.inl (Or.inl ha)
      · rcases List.mem_cons.mp hx with rfl | hx'
        · exact Or.inl (Or.inr ⟨hc, rfl⟩)
        · exact Or.inr ⟨hc, hx'⟩

theorem mem_foldl_addCited (chunks : List GroundingChunk)
    (ss : List GroundingSupport) (acc : List Int) (j : Int) :
    j ∈ ss.foldl (addCited chunks) acc
      ↔ j ∈ acc
        ∨ (hasChunk chunks j = true ∧ ∃ s ∈ ss, j ∈ s.chunkIndices) := by
  induction ss generalizing acc with
  | nil => simp
  | cons s ss ih =>
    rw [List.foldl_cons, ih, addCited, mem_foldl_addIdx]
    constructor
    · rintro ((ha | ⟨hc, hm⟩) | ⟨hc, s', hs', hm⟩)
      · exact Or.inl ha
      · exact Or.inr ⟨hc, s, List.mem_cons_self _ _, hm⟩
      · exact Or.inr ⟨hc, s', List.mem_cons_of_mem _ hs', hm⟩
    · rintro (ha | ⟨hc, s', hs', hm⟩)
      · exact Or.inl (Or.inl ha)
      · rcases List.mem_cons.mp hs' with rfl | h'
        · exact Or.inl (Or.inr ⟨hc, hm⟩)
        · exact Or.inr ⟨hc, s', h', hm⟩

theorem mem_citedIndices (n : Nat) (supports : List GroundingSupport)
    (chunks : List GroundingChunk) (j : Int) :
    j ∈ citedIndices n supports chunks
      ↔ hasChunk chunks j = true
        ∧ ∃ s ∈ supports, isValidSupport n s = true ∧ j ∈ s.chunkIndices := by
  rw [citedIndices, mem_foldl_addCited]
  simp only [List.not_mem_nil, false_or]
  constructor
  · rintro ⟨hc, s, hs, hm⟩
    rw [sortAscByEnd, List.mem_insertionSort, validSupports,
      List.mem_filter] at hs
    exact ⟨hc, s, hs.1, hs.2, hm⟩
  · rintro ⟨hc, s, hs, hv, hm⟩
    refine ⟨hc, s, ?_, hm⟩
    rw [sortAscByEnd, List.mem_insertionSort, validSupports, List.mem_filter]
    exact ⟨hs, hv⟩

theorem nodup_foldl_addIdx (chunks : List GroundingChunk) (l acc : List Int)
    (h : acc.Nodup) : (l.foldl (addIdx chunks) acc).Nodup := by
  induction l generalizing acc with
  | nil => exact h
  | cons x xs ih =>
    rw [List.foldl_cons]
    apply ih
    rw [addIdx]
    by_cases hc : (hasChunk chunks x && !(decide (x ∈ acc))) = true
    · rw [if_pos hc]
      rw [Bool.and_eq_true, Bool.not_eq_true', decide_eq_false_iff_not] at hc
      simp [List.nodup_append, h, hc.2]
    · rw [if_neg hc]
      exact h

theorem nodup_foldl_addCited (chunks : List GroundingChunk)
    (ss : List GroundingSupport) (acc : List Int) (h : acc.Nodup) :
    (ss.foldl (addCited chunks) acc).Nodup := by
  induction ss generalizing acc with
  | nil => exact h
  | cons s ss ih =>
    rw [List.foldl_cons, addCited]
    exact ih _ (nodup_foldl_addIdx _ _ _ h)

theorem nodup_citedIndices (n : Nat) (supports : List GroundingSupport)
    (chunks : List GroundingChunk) : (citedIndices n supports chunks).Nodup := by
  rw [citedIndices]
  exact nodup_foldl_addCited _ _ _ List.nodup_nil

theorem sourcesOf_map_displayNumber (chunks : List GroundingChunk)
    (cited : List Int) :
    (sourcesOf chunks cited).map Source.displayNumber
      = List.range' 1 cited.length := by
  rw [sourcesOf, List.map_map]
  have h1 : (Source.displayNumber ∘ fun ki : Nat × Int =>
      match findChunk chunks ki.2 with
      | some c => { displayNumber := ki.1 + 1, title := c.title, uri := c.uri }
      | none => ({ displayNumber := ki.1 + 1, title := [], uri := [] } : Source))
      = ((fun k => k + 1) ∘ Prod.fst) := by
    funext ki
    cases hf : findChunk chunks ki.2 <;> simp [Function.comp, hf]
  rw [h1, ← List.map_map, List.enum_map_fst, List.range'_eq_map_range]
  congr 1
  funext k
  exact Nat.add_comm k 1

theorem length_sourcesOf (chunks : List GroundingChunk) (cited : List Int) :
    (sourcesOf chunks cited).length = cited.length := by
  rw [sourcesOf, List.length_map, List.enum_length]

/-- C2: display numbers are assigned by one left-to-right pass over the valid
supports sorted by endIndex ascending — the first occurrence of a chunk index
gets the next sequential number starting at 1 (the numbers of the emitted
sources are exactly 1, 2, …), and later references reuse the number; on
supports [(0,5,[2]), (10,15,[1])] with chunks of index 1 and 2, chunk 2 gets
display number 1 and chunk 1 gets display number 2, and a third support citing
chunk 2 again reuses marker [1] without adding a source entry. -/
theorem displayNumbering_firstSeen :
    (∀ (policy : FormatPolicy) (text : List Char)
        (supports : List GroundingSupport) (chunks : List GroundingChunk),
        (annotate policy text supports chunks).sources.map Source.displayNumber
          = List.range' 1 (annotate policy text supports chunks).sources.length)
      ∧ citedIndices 16
            [{ startIndex := 0, endIndex := 5, chunkIndices := [2] },
             { startIndex := 10, endIndex := 15, chunkIndices := [1] }]
            [{ index := 1, title := str "t1", uri := str "u1" },
             { index := 2, title := str "t2", uri := str "u2" }]
          = [2, 1]
      ∧ (annotate defaultPolicy (str "0123456789012345")
            [{ startIndex := 0, endIndex := 5, chunkIndices := [2] },
             { startIndex := 10, endIndex := 15, chunkIndices := [1] }]
            [{ index := 1, title := str "t1", uri := str "u1" },
             { index := 2, title := str "t2", uri := str "u2" }]).sources
          = [{ displayNumber := 1, title := str "t2", uri := str "u2" },
             { displayNumber := 2, title := str "t1", uri := str "u1" }]
      ∧ (annotate defaultPolicy (str "0123456789012345")
            [{ startIndex := 0, endIndex := 5, chunkIndices := [2] },
             { startIndex := 10, endIndex := 15, chunkIndices := [1] },
             { startIndex := 15, endIndex := 16, chunkIndices := [2] }]
            [{ index := 1, title := str "t1", uri := str "u1" },
             { index := 2, title := str "t2", uri := str "u2" }]).text
          = str "01234[1]5678901234[2]5[1]" := by
  refine ⟨fun policy text supports chunks => ?_, by decide, by decide, by decide⟩
  show (sourcesOf _ _).map _ = _
  rw [sourcesOf_map_displayNumber]
  congr 1
  exact (length_sourcesOf _ _).symm

/-- C3: the returned sources list has exactly one entry per distinct chunk
index cited by at least one surviving valid support — the recorded cited
indices have no duplicates, an index is recorded exactly when some valid
support cites it and a chunk with that index exists (so chunks never cited by
a surviving valid support are omitted) — and the entries are listed in
display-number order 1, 2, …. -/
theorem sources_one_entry_per_cited (policy : FormatPolicy) (text : List Char)
    (supports : List GroundingSupport) (chunks : List GroundingChunk) :
    (annotate policy text supports chunks).sources
        = sourcesOf chunks (citedIndices text.length supports chunks)
      ∧ (citedIndices text.length supports chunks).Nodup
      ∧ (annotate policy text supports chunks).sources.length
          = (citedIndices text.length supports chunks).length
      ∧ (∀ j : Int,
          j ∈ citedIndices text.length supports chunks
            ↔ hasChunk chunks j = true
              ∧ ∃ s ∈ supports,
                  isValidSupport text.length s = true ∧ j ∈ s.chunkIndices)
      ∧ (annotate policy text supports chunks).sources.map Source.displayNumber
          = List.range' 1 (citedIndices text.length supports chunks).length :=
  ⟨rfl, nodup_citedIndices _ _ _, length_sourcesOf _ _,
    fun j => mem_citedIndices _ _ _ j, sourcesOf_map_displayNumber _ _⟩

theorem idxOf?_eq_none (l : List Int) (j : Int) (h : j ∉ l) :
    idxOf? l j = none := by
  induction l with
  | nil => rfl
  | cons x xs ih =>
    have hxj : (x == j) = false := by
      simp only [beq_eq_false_iff_ne, ne_eq]
      rintro rfl
      exact h (List.mem_cons_self _ _)
    simp only [idxOf?, hxj, Bool.false_eq_true, if_false,
      ih (fun hm => h (List.mem_cons_of_mem _ hm)), Option.map_none']

/-- C5: a chunk index cited by a support but matching no chunk in the chunk
list is dropped without error — a dangling index is never recorded among the
cited indices (hence gets no source entry), a support all of whose indices are
dangling has an empty display-number list (hence contributes no marker), and
concretely support (0,5,[99]) with no chunk of index 99 leaves the text
unchanged with no sources while an accompanying valid support is processed
exactly as if the dangling support were absent. -/
theorem dangling_reference_dropped :
    (annotate defaultPolicy (str "hello world!")
          [{ startIndex := 0, endIndex := 5, chunkIndices := [99] }]
          [{ index := 1, title := str "t", uri := str "u" }])
        = { text := str "hello world!", sources := [] }
      ∧ (annotate defaultPolicy (str "hello world!")
          [{ startIndex := 0, endIndex := 5, chunkIndices := [99] },
           { startIndex := 6, endIndex := 11, chunkIndices := [1] }]
          [{ index := 1, title := str "t", uri := str "u" }])
        = (annotate defaultPolicy (str "hello world!")
          [{ startIndex := 6, endIndex := 11, chunkIndices := [1] }]
          [{ index := 1, title := str "t", uri := str "u" }])
      ∧ (∀ (n : Nat) (supports : List GroundingSupport)
          (chunks : List GroundingChunk) (j : Int),
          hasChunk chunks j = false → j ∉ citedIndices n supports chunks)
      ∧ (∀ (n : Nat) (supports : List GroundingSupport)
          (chunks : List GroundingChunk) (s : GroundingSupport),
          (∀ i ∈ s.chunkIndices, hasChunk chunks i = false) →
          supportNums (citedIndices n supports chunks) s = []) := by
  have hnotmem : ∀ (n : Nat) (supports : List GroundingSupport)
      (chunks : List GroundingChunk) (j : Int),
      hasChunk chunks j = false → j ∉ citedIndices n supports chunks := by
    intro n supports chunks j hfalse hmem
    rw [mem_citedIndices] at hmem
    rw [hmem.1] at hfalse
    exact Bool.true_eq_false.mp hfalse
  refine ⟨by decide, by decide, hnotmem, ?_⟩
  intro n supports chunks s hall
  rw [supportNums]
  have h : s.chunkIndices.filterMap
      (displayNumber? (citedIndices n supports chunks)) = [] := by
    apply List.filterMap_eq_nil_iff.mpr
    intro i hi
    rw [displayNumber?,
      idxOf?_eq_none _ _ (hnotmem n supports chunks i (hall i hi))]
    rfl
  rw [h]
  rfl

/-- Witness for C5 at a concrete input: index 99 dangles, so it is not cited. -/
theorem dangling_reference_dropped_witness :
    (99 : Int) ∉ citedIndices 12
        [{ startIndex := 0, endIndex := 5, chunkIndices := [99] }]
        [{ index := 1, title := str "t", uri := str "u" }] :=
  dangling_reference_dropped.2.2.1 12
    [{ startIndex := 0, endIndex := 5, chunkIndices := [99] }]
    [{ index := 1, title := str "t", uri := str "u" }] 99 (by decide)

/-- C6 counterexample: two valid supports share endIndex 10, but in the output
the marker of the second (later) support sits left of the marker of the first,
so the markers are NOT concatenated in the supports' original sequence order —
the claimed output (original-order concatenation) differs from the actual one. -/
theorem tie_markers_original_order_cex :
    (annotate defaultPolicy (str "0123456789XYZ")
          [{ startIndex := 0, endIndex := 10, chunkIndices := [1] },
           { startIndex := 5, endIndex := 10, chunkIndices := [2] }]
          [{ index := 1, title := str "A", uri := str "a" },
           { index := 2, title := str "B", uri := str "b" }]).text
        = str "0123456789[2][1]XYZ"
      ∧ (annotate defaultPolicy (str "0123456789XYZ")
          [{ startIndex := 0, endIndex := 10, chunkIndices := [1] },
           { startIndex := 5, endIndex := 10, chunkIndices := [2] }]
          [{ index := 1, title := str "A", uri := str "a" },
           { index := 2, title := str "B", uri := str "b" }]).text
        ≠ str "0123456789[1][2]XYZ" := by
  constructor
  · decide
  · decide

theorem insertAt_insertAt (t : List Char) (e : Nat) (m1 m2 : List Char)
    (h : e ≤ t.length) :
    insertAt (insertAt t e m1) e m2
      = t.take e ++ (m2 ++ (m1 ++ t.drop e)) := by
  have hlen : (t.take e).length = e := by
    rw [List.length_take]
    exact Nat.min_eq_left h
  rw [insertAt, insertAt, List.append_assoc (t.take e) m1 (t.drop e),
    List.take_left' hlen, List.drop_left' hlen, List.append_assoc]

/-- C6 amended: two valid supports with identical endIndex both have their
markers inserted at that same character position, with the surrounding text
intact, but the marker strings are concatenated in REVERSE original sequence
order (the support processed second lands at the shared position first, so
its marker ends up on the left). -/
theorem tie_markers_concat_order (policy : FormatPolicy) (text : List Char)
    (s1 s2 : GroundingSupport) (chunks : List GroundingChunk)
    (h1 : isValidSupport text.length s1 = true)
    (h2 : isValidSupport text.length s2 = true)
    (he : s1.endIndex = s2.endIndex)
    (hn1 : supportNums (citedIndices text.length [s1, s2] chunks) s1 ≠ [])
    (hn2 : supportNums (citedIndices text.length [s1, s2] chunks) s2 ≠ []) :
    (annotate policy text [s1, s2] chunks).text
      = text.take s1.endIndex.toNat
        ++ (markerFor policy (citedIndices text.length [s1, s2] chunks) s2
        ++ (markerFor policy (citedIndices text.length [s1, s2] chunks) s1
        ++ text.drop s1.endIndex.toNat)) := by
  have hvalid : validSupports text.length [s1, s2] = [s1, s2] := by
    simp [validSupports, List.filter_cons, h1, h2]
  have hsort : sortDescByEnd [s1, s2] = [s1, s2] := by
    simp [sortDescByEnd, List.insertionSort, List.orderedInsert, he]
  have hne1 : (supportNums (citedIndices text.length [s1, s2] chunks) s1).isEmpty
      = false := by
    cases hq : supportNums (citedIndices text.length [s1, s2] chunks) s1 with
    | nil => exact absurd hq hn1
    | cons a l => rfl
  have hne2 : (supportNums (citedIndices text.length [s1, s2] chunks) s2).isEmpty
      = false := by
    cases hq : supportNums (citedIndices text.length [s1, s2] chunks) s2 with
    | nil => exact absurd hq hn2
    | cons a l => rfl
  have hins : insertionsOf policy text.length [s1, s2] chunks
      = [(s1.endIndex.toNat,
            markerFor policy (citedIndices text.length [s1, s2] chunks) s1),
         (s2.endIndex.toNat,
            markerFor policy (citedIndices text.length [s1, s2] chunks) s2)] := by
    simp only [insertionsOf, hvalid, hsort, List.filter_cons, hne1, hne2,
      Bool.not_false, if_pos, List.filter_nil, List.map_cons, List.map_nil]
  have hlen : s1.endIndex.toNat ≤ text.length := by
    simp only [isValidSupport, Bool.and_eq_true, decide_eq_true_eq] at h1
    omega
  have he2 : s2.endIndex.toNat = s1.endIndex.toNat := by rw [he]
  show applyInsertions text (insertionsOf policy text.length [s1, s2] chunks) = _
  rw [hins]
  show insertAt (insertAt text s1.endIndex.toNat _) s2.endIndex.toNat _ = _
  rw [he2]
  exact insertAt_insertAt text s1.endIndex.toNat _ _ hlen

/-- Witness for C6 amended at a concrete tie: the later support's marker [2]
precedes the earlier support's marker [1] at position 10. -/
theorem tie_markers_concat_order_witness :
    (annotate defaultPolicy (str "0123456789XYZ")
          [{ startIndex := 0, endIndex := 10, chunkIndices := [1] },
           { startIndex := 5, endIndex := 10, chunkIndices := [2] }]
          [{ index := 1, title := str "A", uri := str "a" },
           { index := 2, title := str "B", uri := str "b" }]).text
      = str "0123456789" ++ (str "[2]" ++ (str "[1]" ++ str "XYZ")) := by
  have h := tie_markers_concat_order defaultPolicy (str "0123456789XYZ")
    { startIndex := 0, endIndex := 10, chunkIndices := [1] }
    { startIndex := 5, endIndex := 10, chunkIndices := [2] }
    [{ index := 1, title := str "A", uri := str "a" },
     { index := 2, title := str "B", uri := str "b" }]
    (by decide) (by decide) (by decide) (by decide) (by decide)
  rw [h]
  decide

/-- C9: when either API key is missing or fails validation, the script run is
stopped at the key gate and no search request of any mode is issued — in
particular Conversational mode, which makes no SERP API call of its own, still
issues nothing when only the SERP key is invalid. -/
theorem no_search_without_both_keys (googleValid serpValid : Bool)
    (query : List Char) (mode : SearchMode)
    (h : googleValid = false ∨ serpValid = false) :
    keyGateStops googleValid serpValid = true
      ∧ searchCalls googleValid serpValid query mode = [] := by
  have hstop : keyGateStops googleValid serpValid = true := by
    rcases h with rfl | rfl
    · rfl
    · simp [keyGateStops]
  refine ⟨hstop, ?_⟩
  rw [searchCalls.eq_def, if_pos hstop]

/-- Witness for C9: a validated Google key but an invalid SERP key stops the
run before any Conversational search. -/
theorem no_search_without_both_keys_witness :
    keyGateStops true false = true
      ∧ searchCalls true false (str "query") SearchMode.conversational = [] :=
  no_search_without_both_keys true false (str "query")
    SearchMode.conversational (Or.inr rfl)

theorem organic_search_to_markdown_eq_nil (results : List OrganicResult) :
    organic_search_to_markdown results = [] ↔ results = [] := by
  cases results with
  | nil => simp [organic_search_to_markdown]
  | cons r rs => simp [organic_search_to_markdown, str]

/-- C10: the Traditional branch subscripts the SERP response with
organic_results unconditionally, so a response lacking that key raises an
uncaught KeyError rather than showing the no-results warning; the warning is
shown only when the key is present and maps to a falsy (empty) value. -/
theorem traditional_missing_key_keyerror (d : SerpResponse) :
    (d.find? (fun kv => kv.1 == organicResultsKey) = none →
        traditionalBranch d = Except.error PyError.keyError)
      ∧ (traditionalBranch d = Except.ok Rendered.warning →
          ∃ kv, d.find? (fun kv => kv.1 == organicResultsKey) = some kv
            ∧ kv.2 = [])
      ∧ traditionalBranch [] = Except.error PyError.keyError
      ∧ traditionalBranch [(organicResultsKey, [])] = Except.ok Rendered.warning := by
  refine ⟨?_, ?_, rfl, rfl⟩
  · intro hnone
    rw [traditionalBranch, dictIndex, hnone]
  · intro hwarn
    cases hfind : d.find? (fun kv => kv.1 == organicResultsKey) with
    | none =>
      rw [traditionalBranch, dictIndex, hfind] at hwarn
      exact absurd hwarn (by simp)
    | some kv =>
      refine ⟨kv, rfl, ?_⟩
      rw [traditionalBranch, dictIndex, hfind] at hwarn
      simp only [] at hwarn
      by_cases hemp : organic_search_to_markdown kv.2 = []
      · exact (organic_search_to_markdown_eq_nil kv.2).mp hemp
      · exfalso
        have hne : (organic_search_to_markdown kv.2).isEmpty = false := by
          cases hq : organic_search_to_markdown kv.2 with
          | nil => exact absurd hq hemp
          | cons a l => rfl
        rw [hne] at hwarn
        simp at hwarn

/-- Witness for C10: a response carrying only search_metadata raises KeyError,
never reaching the warning. -/
theorem traditional_missing_key_keyerror_witness :
    traditionalBranch [(str "search_metadata", [])]
      = Except.error PyError.keyError :=
  (traditional_missing_key_keyerror [(str "search_metadata", [])]).1 (by decide)
